import Mathlib

set_option maxHeartbeats 1000000

/-!
Shallow embedding of the MontePython MCMC engine
(`src/MontePython/sampler.py` and `src/MontePython/metropolis_sampler.py`).

Modelling choices:
* Real scalars are modelled as integers (`ℤ`): the verified properties use
  only ring arithmetic (`+`, `-`, `*`) and the linear order on scalars, never
  division, so any linearly ordered commutative ring is a faithful stand-in
  for the Python floats; `ℤ` keeps every definition kernel-computable.
* The numpy random generator `np.random.mtrand.RandomState` is a
  deterministic entropy stream: a `RandomState` holds the list of scalars
  it will hand out next, and every primitive draw consumes from the front.
  A scalar normal draw consumes one scalar, a `dim`-variate normal draw
  consumes `dim` scalars, `rand()` consumes one scalar.
* The opaque numeric library functions `np.sqrt`, `np.exp` and the
  covariance shaping inside `multivariate_normal` are black-box parameters
  collected in `Env`; the control flow around them is translated from the
  source.
* numpy array writes `a[ind] = v` raise `IndexError` when `ind` is out of
  range; the generator/`run` machinery propagates such exceptions.  This is
  modelled by the `err` constructor of `LoopResult` (and `indexError` of
  `RunResult`), which carry the sampler state as already mutated when the
  exception is raised.
* Python's generator protocol: `run` drives `sample` to completion,
  discarding every yielded triple but the last; with zero iterations the
  loop variable `results` is never bound and `results[:3]` raises
  `UnboundLocalError` (constructor `unboundLocalError`).
-/

namespace MontePython

/-- A position vector in parameter space (one row of the chain). -/
abbrev PosVec := List ℤ

/-- Deterministic model of `np.random.mtrand.RandomState`: the stream of
entropy scalars the generator will produce next. -/
structure RandomState where
  seq : List ℤ
deriving DecidableEq

/-- Draw one scalar from the generator, advancing its state. -/
def RandomState.next (r : RandomState) : ℤ × RandomState :=
  (r.seq.headD 0, RandomState.mk r.seq.tail)

/-- Draw `n` scalars from the generator, advancing its state `n` times. -/
def RandomState.nextN : RandomState → ℕ → List ℤ × RandomState
  | r, 0 => ([], r)
  | r, n + 1 =>
    let v := r.next
    let vs := v.2.nextN n
    (v.1 :: vs.1, vs.2)

/-- The triple `(position, log-probability, RNG state)` yielded by `sample`
(line 266 of `metropolis_sampler.py`) and stored as the checkpoint. -/
abbrev YieldT := PosVec × ℤ × RandomState

/-- The proposal covariance (`cov` in `MetropolisSampler.__init__`): a scalar
variance in the one-dimensional case, a matrix otherwise. -/
inductive Cov where
  | scalar (v : ℤ)
  | matrix (m : List (List ℤ))
deriving DecidableEq

/-- Black-box numeric primitives used by the step: `np.sqrt`, `np.exp`, and
the linear shaping that `multivariate_normal` applies to fresh standard
draws.  The claims depend only on the data flow around them. -/
structure Env where
  sqrt : ℤ → ℤ
  exp : ℤ → ℤ
  mvTransform : Cov → List ℤ → List ℤ

/-- The mutable state of a `MetropolisSampler` object: problem definition
(`dim`, `lnprobfn` with its fixed `args`/`kwargs` folded in, `cov`), the
owned RNG `_random`, the buffers `_chain` and `_lnprob`, the counters, and
the `_last_run` checkpoint. -/
structure SamplerState where
  dim : ℕ
  lnprobfn : PosVec → ℤ
  cov : Cov
  random : RandomState
  chain : List PosVec
  lnprob : List ℤ
  iterations : ℕ
  accepted : ℕ
  lastRun : Option YieldT

/-- A value supplied to the `random_state` setter: Python `None`, an
arbitrary malformed value (anything `set_state` rejects), or a valid
snapshot previously obtained from the getter. -/
inductive RStateArg where
  | none
  | malformed
  | valid (r : RandomState)

/-- The `random_state` property getter (lines 53–56 of `sampler.py`):
`self._random.get_state()`. -/
def random_state (s : SamplerState) : RandomState :=
  s.random

/-- The `random_state` property setter (lines 58–67 of `sampler.py`):
`set_state` inside a bare `try`/`except: pass`, so an absent or malformed
value leaves the generator untouched and no error escapes.  The function is
total: it never raises. -/
def trySetRandomState (a : RStateArg) (r : RandomState) : RandomState :=
  match a with
  | .none => r
  | .malformed => r
  | .valid v => v

/-- `Sampler.get_lnprob` (lines 86–88 of `sampler.py`): the user callback at
`p` with the fixed extra arguments (already folded into `lnprobfn`). -/
def get_lnprob (s : SamplerState) (p : PosVec) : ℤ :=
  s.lnprobfn p

/-- `Sampler.reset` (lines 41–51 of `sampler.py`): empty chain and
log-probability buffers, zero counters, cleared checkpoint.  The RNG and the
problem definition are untouched. -/
def reset (s : SamplerState) : SamplerState :=
  { s with chain := [], lnprob := [], iterations := 0, accepted := 0,
           lastRun := Option.none }

/-- `Sampler.__init__` followed by the `reset()` it calls
(lines 30–39 of `sampler.py`, plus `MetropolisSampler.__init__`). -/
def mkSampler (dim : ℕ) (f : PosVec → ℤ) (cov : Cov) (r0 : RandomState) :
    SamplerState :=
  reset { dim := dim, lnprobfn := f, cov := cov, random := r0, chain := [],
          lnprob := [], iterations := 0, accepted := 0,
          lastRun := Option.none }

/-- The scalar variance used by the one-dimensional proposal
(`np.sqrt(self.cov)` is applied to it). -/
def covScalar : Cov → ℤ
  | .scalar v => v
  | .matrix m => (m.headD []).headD 0

/-- The Gaussian proposal, lines 246–249 of `metropolis_sampler.py`:
`q = self._random.normal(p, np.sqrt(self.cov))` when `dim == 1`, else
`q = self._random.multivariate_normal(p, self.cov)`.  A scalar normal draw
is `mean + sd * z` with `z` one fresh entropy scalar; a `dim`-variate draw
adds to `p` the covariance shaping of `dim` fresh scalars. -/
def drawProposal (env : Env) (dim : ℕ) (cov : Cov) (p : PosVec)
    (r : RandomState) : PosVec × RandomState :=
  if dim = 1 then
    let z := r.next
    (p.map (fun x => x + env.sqrt (covScalar cov) * z.1), z.2)
  else
    let zs := r.nextN dim
    (List.zipWith (fun a b => a + b) p (env.mvTransform cov zs.1), zs.2)

/-- One Metropolis proposal/accept-reject step, lines 246–259 of
`metropolis_sampler.py`: draw `q`, evaluate `newlnprob`, set
`diff = newlnprob - lnprob`; when `diff < 0` rebind
`diff = np.exp(diff) - self._random.rand()`; accept exactly when the
(possibly rebound) `diff > 0`.  Returns the new current triple together
with the acceptance flag. -/
def move (env : Env) (dim : ℕ) (cov : Cov) (f : PosVec → ℤ) (p : PosVec)
    (lnp : ℤ) (r : RandomState) : YieldT × Bool :=
  let pr := drawProposal env dim cov p r
  let q := pr.1
  let newlnprob := f q
  let diff := newlnprob - lnp
  let dr := if diff < 0 then
      let u := pr.2.next
      (env.exp diff - u.1, u.2)
    else (diff, pr.2)
  if 0 < dr.1 then ((q, newlnprob, dr.2), true) else ((p, lnp, dr.2), false)

/-- The pure Markov trajectory: the per-step `(position, log-probability,
RNG state)` triples together with the acceptance flags, for `n` successive
applications of `move`. -/
def mhRun (env : Env) (dim : ℕ) (cov : Cov) (f : PosVec → ℤ) :
    PosVec → ℤ → RandomState → ℕ → List (YieldT × Bool)
  | _, _, _, 0 => []
  | p, lnp, r, n + 1 =>
    let mr := move env dim cov f p lnp r
    mr :: mhRun env dim cov f mr.1.1 mr.1.2.1 mr.1.2.2 n

/-- The endpoint of the pure Markov trajectory after `n` steps. -/
def mhFinal (env : Env) (dim : ℕ) (cov : Cov) (f : PosVec → ℤ) :
    PosVec → ℤ → RandomState → ℕ → YieldT
  | p, lnp, r, 0 => (p, lnp, r)
  | p, lnp, r, n + 1 =>
    let mr := move env dim cov f p lnp r
    mhFinal env dim cov f mr.1.1 mr.1.2.1 mr.1.2.2 n

/-- Number of accepted steps in a trajectory segment. -/
def acceptCount : List (YieldT × Bool) → ℕ
  | [] => 0
  | x :: xs => (if x.2 then 1 else 0) + acceptCount xs

/-- Outcome of driving the `sample` generator: either it ran to completion
(final sampler state, final position and log-probability, and the list of
yielded triples in order), or a buffer write raised `IndexError` after the
listed yields, leaving the sampler state as mutated so far. -/
inductive LoopResult where
  | ok (s : SamplerState) (p : PosVec) (lnp : ℤ) (ys : List YieldT)
  | err (s : SamplerState) (ys : List YieldT)

/-- Prepend a yielded triple to a loop outcome. -/
def consYield (y : YieldT) : LoopResult → LoopResult
  | .ok s p lnp ys => .ok s p lnp (y :: ys)
  | .err s ys => .err s (y :: ys)

/-- The sampler state carried by a loop outcome. -/
def LoopResult.stateOf : LoopResult → SamplerState
  | .ok s _ _ _ => s
  | .err s _ => s

/-- The final position carried by a completed loop outcome. -/
def LoopResult.posOf : LoopResult → PosVec
  | .ok _ p _ _ => p
  | .err _ _ => []

/-- Whether the loop ran to completion. -/
def LoopResult.isOk : LoopResult → Bool
  | .ok _ _ _ _ => true
  | .err _ _ => false

/-- The yielded triples of a loop outcome. -/
def LoopResult.yieldsOf : LoopResult → List YieldT
  | .ok _ _ _ ys => ys
  | .err _ ys => ys

/-- The per-step body of `MetropolisSampler.sample`, lines 243–266 of
`metropolis_sampler.py`, iterated `rem` more times with loop index `i`
(`for i in range(iterations)`) and `i0 = self.iterations` captured before
the loop:

* `self.iterations += 1`;
* the Metropolis step (`move`), mutating `self._random` in place;
* on acceptance `self.accepted += 1`;
* `if store_chain and i % thin == 0:` write the current position and
  log-probability at row `ind = i0 + int(i / thin)`; an out-of-range row
  raises `IndexError` (the chain write `self._chain[ind, :] = p` runs
  first, then `self._lnprob[ind] = lnprob`);
* yield `(p, lnprob, self.random_state)`. -/
def sampleLoop (env : Env) (thin : ℕ) (store : Bool) (i0 : ℕ) :
    SamplerState → PosVec → ℤ → ℕ → ℕ → LoopResult
  | s, p, lnp, _, 0 => .ok s p lnp []
  | s, p, lnp, i, rem + 1 =>
    let s1 : SamplerState := { s with iterations := s.iterations + 1 }
    let mr := move env s1.dim s1.cov s1.lnprobfn p lnp s1.random
    let p' := mr.1.1
    let lnp' := mr.1.2.1
    let r' := mr.1.2.2
    let s2 : SamplerState :=
      { s1 with random := r',
                accepted := if mr.2 then s1.accepted + 1 else s1.accepted }
    if store ∧ i % thin = 0 then
      let ind := i0 + i / thin
      if ind < s2.chain.length then
        let s3 : SamplerState := { s2 with chain := s2.chain.set ind p' }
        if ind < s3.lnprob.length then
          let s4 : SamplerState := { s3 with lnprob := s3.lnprob.set ind lnp' }
          consYield (p', lnp', r') (sampleLoop env thin store i0 s4 p' lnp' (i + 1) rem)
        else .err s3 []
      else .err s2 []
    else
      consYield (p', lnp', r') (sampleLoop env thin store i0 s2 p' lnp' (i + 1) rem)

/-- `MetropolisSampler.sample` driven to exhaustion, lines 228–266 of
`metropolis_sampler.py`: restore the RNG fail-soft, compute the starting
log-probability from the callback when not supplied, pre-extend the chain
and log-probability buffers by `int(iterations / thin)` zero rows when
`store_chain`, capture `i0 = self.iterations`, then run the per-step loop. -/
def sample (env : Env) (s : SamplerState) (p : PosVec) (lnprob : Option ℤ)
    (rstate : RStateArg) (thin : ℕ) (store : Bool) (iterations : ℕ) :
    LoopResult :=
  let sA : SamplerState := { s with random := trySetRandomState rstate s.random }
  let lnp : ℤ := match lnprob with
    | Option.some v => v
    | Option.none => get_lnprob sA p
  let sB : SamplerState := if store then
      { sA with
        chain := sA.chain ++ List.replicate (iterations / thin) (List.replicate sA.dim 0),
        lnprob := sA.lnprob ++ List.replicate (iterations / thin) 0 }
    else sA
  sampleLoop env thin store sB.iterations sB p lnp 0 iterations

/-- Last element of a list, `Option.none` on the empty list (how the value
of the loop variable `results` after `for results in ...: pass` is
modelled: unbound exactly when the generator yielded nothing). -/
def lastY : List YieldT → Option YieldT
  | [] => Option.none
  | [a] => Option.some a
  | _ :: b :: l => lastY (b :: l)

/-- Outcome of `Sampler.run`: the final sampler state together with the
returned triple, or one of the reachable exceptions (`ValueError` for
`p0=None` with no checkpoint, `UnboundLocalError` for zero iterations,
`IndexError` propagated from the chain write).  Every constructor carries
the sampler state as left behind. -/
inductive RunResult where
  | ok (s : SamplerState) (res : YieldT)
  | valueError (s : SamplerState)
  | unboundLocalError (s : SamplerState)
  | indexError (s : SamplerState)

/-- The sampler state left behind by `run`. -/
def RunResult.state : RunResult → SamplerState
  | .ok s _ => s
  | .valueError s => s
  | .unboundLocalError s => s
  | .indexError s => s

/-- Whether `run` returned normally. -/
def RunResult.isOk : RunResult → Bool
  | .ok _ _ => true
  | _ => false

/-- Whether `run` raised `IndexError`. -/
def RunResult.isIndexErr : RunResult → Bool
  | .indexError _ => true
  | _ => false

/-- Whether `run` raised the unbound-variable error. -/
def RunResult.isUnboundLocal : RunResult → Bool
  | .unboundLocalError _ => true
  | _ => false

/-- Lines 135–142 of `sampler.py`: drive `sample` to completion discarding
every yielded value, then persist the last one as `_last_run` and return
it.  When the generator yields nothing the loop variable is never bound and
`results[:3]` raises `UnboundLocalError`; an `IndexError` from inside the
generator propagates. -/
def runFrom (env : Env) (s : SamplerState) (p : PosVec) (lnprob : Option ℤ)
    (rstate : RStateArg) (thin : ℕ) (store : Bool) (N : ℕ) : RunResult :=
  match sample env s p lnprob rstate thin store N with
  | .ok s' _ _ ys =>
    match lastY ys with
    | Option.none => .unboundLocalError s'
    | Option.some y => .ok { s' with lastRun := Option.some y } y
  | .err s' _ => .indexError s'

/-- `Sampler.run`, lines 94–142 of `sampler.py`.  When `p0` is `None` the
checkpoint must exist (`ValueError` otherwise) and supplies defaults for
any of position, log-probability and RNG state that were omitted. -/
def run (env : Env) (s : SamplerState) (p0 : Option PosVec) (N : ℕ)
    (lnprob0 : Option ℤ) (rstate0 : RStateArg) (thin : ℕ) (store : Bool) :
    RunResult :=
  match p0 with
  | Option.none =>
    match s.lastRun with
    | Option.none => .valueError s
    | Option.some lr =>
      let lnp : Option ℤ := match lnprob0 with
        | Option.none => Option.some lr.2.1
        | Option.some v => Option.some v
      let rs : RStateArg := match rstate0 with
        | .none => .valid lr.2.2
        | x => x
      runFrom env s lr.1 lnp rs thin store N
  | Option.some p => runFrom env s p lnprob0 rstate0 thin store N

/-- Element `n` of a list, with default.  Used to state which trajectory
state a stored chain row holds. -/
def nth (d : α) : List α → ℕ → α
  | [], _ => d
  | a :: _, 0 => a
  | _ :: l, n + 1 => nth d l n

/-- The chain writes performed by the loop in isolation: starting at loop
index `i`, write value `v` of each step with `i % thin = 0` at row
`i0 + i / thin`. -/
def storeWrites (i0 thin : ℕ) : List α → ℕ → List α → List α
  | acc, _, [] => acc
  | acc, i, v :: vs =>
    storeWrites i0 thin (if i % thin = 0 then acc.set (i0 + i / thin) v else acc)
      (i + 1) vs

/-- Agreement of two sampler states on every field that the stepping
sequence reads or that determines the stored chain: the problem definition,
the buffers, the RNG and the cumulative iteration counter (which fixes the
write base `i0`).  The acceptance counter and the checkpoint may differ. -/
def StepAgree (s1 s2 : SamplerState) : Prop :=
  s1.dim = s2.dim ∧ s1.cov = s2.cov ∧ s1.lnprobfn = s2.lnprobfn ∧
  s1.chain = s2.chain ∧ s1.lnprob = s2.lnprob ∧ s1.random = s2.random ∧
  s1.iterations = s2.iterations

/-- Agreement of two loop outcomes: same completion status, same yielded
triples, same final position and log-probability, and final states that
again agree in the sense of `StepAgree`. -/
def ResultsAgree : LoopResult → LoopResult → Prop
  | .ok s1 p1 l1 ys1, .ok s2 p2 l2 ys2 =>
    p1 = p2 ∧ l1 = l2 ∧ ys1 = ys2 ∧ StepAgree s1 s2
  | .err s1 ys1, .err s2 ys2 => ys1 = ys2 ∧ StepAgree s1 s2
  | _, _ => False

/-! Concrete instances used by witnesses and counterexamples. -/

/-- A concrete numeric environment (any choice of the black boxes is
legitimate for exercising the control flow). -/
def envC : Env :=
  { sqrt := fun x => x, exp := fun x => x, mvTransform := fun _ zs => zs }

/-- A constant log-density callback. -/
def fzero : PosVec → ℤ := fun _ => 0

/-- A one-dimensional sampler right after construction, with one entropy
scalar pending. -/
def sC1 : SamplerState :=
  { dim := 1, lnprobfn := fzero, cov := Cov.scalar 1,
    random := RandomState.mk [1], chain := [], lnprob := [],
    iterations := 0, accepted := 0, lastRun := Option.none }

/-- A sampler with no checkpoint. -/
def sNoCk : SamplerState :=
  { dim := 1, lnprobfn := fzero, cov := Cov.scalar 1,
    random := RandomState.mk [1], chain := [], lnprob := [],
    iterations := 0, accepted := 0, lastRun := Option.none }

/-- A sampler with a checkpoint from a previous `run`. -/
def sCk : SamplerState :=
  { dim := 1, lnprobfn := fzero, cov := Cov.scalar 1,
    random := RandomState.mk [1], chain := [[3]], lnprob := [5],
    iterations := 1, accepted := 0,
    lastRun := Option.some ([3], 5, RandomState.mk [7]) }

/-- Two sampler states that agree on everything the stepping sequence reads
but have different acceptance counters and checkpoints (different
histories). -/
def sAgree1 : SamplerState :=
  { dim := 1, lnprobfn := fzero, cov := Cov.scalar 1,
    random := RandomState.mk [3], chain := [[0]], lnprob := [0],
    iterations := 1, accepted := 0, lastRun := Option.none }

/-- See `sAgree1`. -/
def sAgree2 : SamplerState :=
  { dim := 1, lnprobfn := fzero, cov := Cov.scalar 1,
    random := RandomState.mk [3], chain := [[0]], lnprob := [0],
    iterations := 1, accepted := 1,
    lastRun := Option.some ([9], 9, RandomState.mk [9]) }

/-! Helper lemmas. -/

theorem nextN_seq : ∀ (n : ℕ) (r : RandomState),
    (RandomState.nextN r n).2.seq = r.seq.drop n := by
  intro n
  induction n with
  | zero => intro r; simp [RandomState.nextN]
  | succ k ih =>
    intro r
    show ((r.next.2).nextN k).2.seq = r.seq.drop (k + 1)
    rw [ih]
    show (r.seq.tail).drop k = r.seq.drop (k + 1)
    rw [← List.drop_one, List.drop_drop, Nat.add_comm]

theorem drawProposal_seq (env : Env) (dim : ℕ) (cov : Cov) (p : PosVec)
    (r : RandomState) :
    (drawProposal env dim cov p r).2.seq =
      r.seq.drop (if dim = 1 then 1 else dim) := by
  by_cases h : dim = 1
  · simp [drawProposal, h, RandomState.next, List.drop_one]
  · simp [drawProposal, h, nextN_seq]

/-- Claim C5 (proved): each Metropolis step consumes the entropy of one
Gaussian proposal draw (one scalar when `dim = 1`, `dim` scalars
otherwise), plus exactly one uniform scalar when and only when
`delta < 0`; and in the `delta < 0` case the step accepts iff
`exp(delta) > u` where `u` is that uniform draw. -/
theorem claim_C5 : ∀ (env : Env) (dim : ℕ) (cov : Cov) (f : PosVec → ℤ)
    (p : PosVec) (lnp : ℤ) (r : RandomState),
    ((move env dim cov f p lnp r).1.2.2.seq =
      r.seq.drop ((if dim = 1 then 1 else dim) +
        (if f (drawProposal env dim cov p r).1 - lnp < 0 then 1 else 0))) ∧
    (f (drawProposal env dim cov p r).1 - lnp < 0 →
      ((move env dim cov f p lnp r).2 = true ↔
        (drawProposal env dim cov p r).2.seq.headD 0 <
          env.exp (f (drawProposal env dim cov p r).1 - lnp))) := by
  intro env dim cov f p lnp r
  constructor
  · by_cases h : f (drawProposal env dim cov p r).1 - lnp < 0
    · simp only [move, if_pos h, RandomState.next]
      split <;> simp [drawProposal_seq, List.tail_drop, h]
    · simp only [move, if_neg h]
      split <;> simp [drawProposal_seq, h]
  · intro h
    simp only [move, if_pos h, RandomState.next, sub_pos]
    split
    next ha => simp [ha]; simpa using ha
    next ha => simp [ha]; simpa using not_lt.mp ha

/-- Witness for C5 at a concrete input with `delta < 0`: the proposal
consumes one scalar, the uniform a second, and the acceptance test compares
`exp(delta)` with the uniform draw. -/
theorem claim_C5_witness :
    ((move envC 1 (Cov.scalar 1) (fun _ => (-1 : ℤ)) [0] 0
        (RandomState.mk [2, 0])).1.2.2.seq =
      (RandomState.mk [2, 0]).seq.drop ((if (1:ℕ) = 1 then 1 else 1) +
        (if (fun _ => (-1 : ℤ))
            (drawProposal envC 1 (Cov.scalar 1) [0] (RandomState.mk [2, 0])).1 - 0 < 0
          then 1 else 0))) ∧
    ((move envC 1 (Cov.scalar 1) (fun _ => (-1 : ℤ)) [0] 0
        (RandomState.mk [2, 0])).2 = true ↔
      (drawProposal envC 1 (Cov.scalar 1) [0]
          (RandomState.mk [2, 0])).2.seq.headD 0 <
        envC.exp ((fun _ => (-1 : ℤ))
          (drawProposal envC 1 (Cov.scalar 1) [0] (RandomState.mk [2, 0])).1 - 0)) :=
  ⟨(claim_C5 envC 1 (Cov.scalar 1) (fun _ => (-1 : ℤ)) [0] 0
      (RandomState.mk [2, 0])).1,
   (claim_C5 envC 1 (Cov.scalar 1) (fun _ => (-1 : ℤ)) [0] 0
      (RandomState.mk [2, 0])).2 (by decide)⟩

/-- Claim C1 (amended, proved): the step accepts unconditionally exactly
when `delta > 0` strictly; when `delta = 0` the step rejects, also without
drawing a uniform variate (its generator state is the proposal's). -/
theorem claim_C1 : ∀ (env : Env) (dim : ℕ) (cov : Cov) (f : PosVec → ℤ)
    (p : PosVec) (lnp : ℤ) (r : RandomState),
    (0 < f (drawProposal env dim cov p r).1 - lnp →
      move env dim cov f p lnp r =
        (((drawProposal env dim cov p r).1, f (drawProposal env dim cov p r).1,
          (drawProposal env dim cov p r).2), true)) ∧
    (f (drawProposal env dim cov p r).1 - lnp = 0 →
      move env dim cov f p lnp r =
        ((p, lnp, (drawProposal env dim cov p r).2), false)) := by
  intro env dim cov f p lnp r
  constructor
  · intro h
    simp only [move, if_neg (not_lt.mpr (le_of_lt h)), if_pos h]
  · intro h
    simp only [move, h, if_neg (lt_irrefl (0:ℤ)), if_neg (not_lt.mpr (le_of_eq rfl))]

/-- Witness for the amended C1 at a concrete input with `delta > 0`. -/
theorem claim_C1_witness :
    move envC 1 (Cov.scalar 1) (fun _ => (1 : ℤ)) [0] 0 (RandomState.mk [1]) =
      (((drawProposal envC 1 (Cov.scalar 1) [0] (RandomState.mk [1])).1,
        (fun _ => (1 : ℤ))
          (drawProposal envC 1 (Cov.scalar 1) [0] (RandomState.mk [1])).1,
        (drawProposal envC 1 (Cov.scalar 1) [0] (RandomState.mk [1])).2), true) :=
  (claim_C1 envC 1 (Cov.scalar 1) (fun _ => (1 : ℤ)) [0] 0
    (RandomState.mk [1])).1 (by decide)

/-- Counterexample to C1 as stated: a concrete step with
`delta = 0 ≥ 0` whose candidate (`[1]`) differs from the current position
(`[0]`), yet the step rejects — the position stays `[0]` and `accepted`
stays `0`, so a step with `delta ≥ 0` does not accept unconditionally. -/
theorem claim_C1_counterexample :
    0 ≤ get_lnprob sC1 (drawProposal envC 1 (Cov.scalar 1) [0]
        (RandomState.mk [1])).1 - 0 ∧
    (drawProposal envC 1 (Cov.scalar 1) [0] (RandomState.mk [1])).1 = [1] ∧
    (sampleLoop envC 1 false 0 sC1 [0] 0 0 1).posOf = [0] ∧
    (sampleLoop envC 1 false 0 sC1 [0] 0 0 1).stateOf.accepted = 0 := by
  decide

/-- Claim C7 (proved): the `random_state` setter is a total function (it
never raises); an absent (`None`) or malformed value leaves the generator
exactly as it was, and a valid snapshot obtained from the getter is
restored verbatim. -/
theorem claim_C7 : ∀ (s : SamplerState) (r : RandomState),
    trySetRandomState RStateArg.none r = r ∧
    trySetRandomState RStateArg.malformed r = r ∧
    trySetRandomState (RStateArg.valid (random_state s)) r = random_state s := by
  intro s r
  exact ⟨rfl, rfl, rfl⟩

/-- Claim C9 (proved): `reset` empties the chain and log-probability
buffers, zeroes both counters and clears the checkpoint, while leaving the
RNG state and the problem definition (dimension, callback, covariance)
untouched — for a sampler state reached in any way whatsoever. -/
theorem claim_C9 : ∀ s : SamplerState,
    (reset s).chain = [] ∧ (reset s).lnprob = [] ∧
    (reset s).iterations = 0 ∧ (reset s).accepted = 0 ∧
    (reset s).lastRun = Option.none ∧ (reset s).random = s.random ∧
    (reset s).dim = s.dim ∧ (reset s).lnprobfn = s.lnprobfn ∧
    (reset s).cov = s.cov := by
  intro s
  exact ⟨rfl, rfl, rfl, rfl, rfl, rfl, rfl, rfl, rfl⟩

/-- Claim C6 (proved): `run` with the position omitted raises `ValueError`
when no checkpoint exists, and when a checkpoint exists it behaves exactly
as the call with position, log-probability and RNG state supplied from the
checkpoint. -/
theorem claim_C6 : ∀ (env : Env) (s : SamplerState) (N : ℕ)
    (lnprob0 : Option ℤ) (rstate0 : RStateArg) (thin : ℕ) (store : Bool),
    (s.lastRun = Option.none →
      run env s Option.none N lnprob0 rstate0 thin store =
        RunResult.valueError s) ∧
    (∀ pc lc rc, s.lastRun = Option.some (pc, lc, rc) →
      run env s Option.none N Option.none RStateArg.none thin store =
        run env s (Option.some pc) N (Option.some lc) (RStateArg.valid rc)
          thin store) := by
  intro env s N l rs th st
  constructor
  · intro h
    simp [run, h]
  · intro pc lc rc h
    simp [run, h]

/-- Witness for C6: a sampler without checkpoint raises `ValueError`, and
one with a checkpoint defaults all three omitted arguments from it. -/
theorem claim_C6_witness :
    run envC sNoCk Option.none 4 Option.none RStateArg.none 1 true =
      RunResult.valueError sNoCk ∧
    run envC sCk Option.none 4 Option.none RStateArg.none 1 true =
      run envC sCk (Option.some [3]) 4 (Option.some 5)
        (RStateArg.valid (RandomState.mk [7])) 1 true :=
  ⟨(claim_C6 envC sNoCk 4 Option.none RStateArg.none 1 true).1 rfl,
   (claim_C6 envC sCk 4 Option.none RStateArg.none 1 true).2 [3] 5
     (RandomState.mk [7]) rfl⟩

theorem consYield_stateOf (y : YieldT) (R : LoopResult) :
    (consYield y R).stateOf = R.stateOf := by
  cases R <;> rfl

theorem consYield_yieldsOf (y : YieldT) (R : LoopResult) :
    (consYield y R).yieldsOf = y :: R.yieldsOf := by
  cases R <;> rfl

/-- The loop never changes the length of either buffer (writes are
in-place; on `IndexError` nothing was appended either). -/
theorem sampleLoop_lengths (env : Env) (thin : ℕ) (store : Bool) (i0 : ℕ) :
    ∀ (rem : ℕ) (s : SamplerState) (p : PosVec) (lnp : ℤ) (i : ℕ),
    (sampleLoop env thin store i0 s p lnp i rem).stateOf.chain.length
        = s.chain.length ∧
    (sampleLoop env thin store i0 s p lnp i rem).stateOf.lnprob.length
        = s.lnprob.length := by
  intro rem
  induction rem with
  | zero => intro s p lnp i; exact ⟨rfl, rfl⟩
  | succ k ih =>
    intro s p lnp i
    simp only [sampleLoop]
    split
    · split
      · split
        · rw [consYield_stateOf]
          refine ⟨(ih _ _ _ _).1.trans ?_, (ih _ _ _ _).2.trans ?_⟩ <;>
            simp
        · exact ⟨by simp [LoopResult.stateOf], by simp [LoopResult.stateOf]⟩
      · exact ⟨rfl, rfl⟩
    · rw [consYield_stateOf]
      exact ⟨(ih _ _ _ _).1, (ih _ _ _ _).2⟩

/-- Effect of `sample` on the buffer lengths: both grow by
`iterations / thin` when `store_chain`, by nothing otherwise, in every
outcome. -/
theorem sample_lengths (env : Env) (s : SamplerState) (p : PosVec)
    (lnprob : Option ℤ) (rstate : RStateArg) (thin : ℕ) (store : Bool)
    (n : ℕ) :
    (sample env s p lnprob rstate thin store n).stateOf.chain.length
        = s.chain.length + (if store then n / thin else 0) ∧
    (sample env s p lnprob rstate thin store n).stateOf.lnprob.length
        = s.lnprob.length + (if store then n / thin else 0) := by
  unfold sample
  cases store
  · simpa using ⟨(sampleLoop_lengths env thin false _ n _ p _ 0).1,
      (sampleLoop_lengths env thin false _ n _ p _ 0).2⟩
  · constructor
    · rw [(sampleLoop_lengths env thin true _ n _ p _ 0).1]
      simp
    · rw [(sampleLoop_lengths env thin true _ n _ p _ 0).2]
      simp

/-- `runFrom` leaves exactly the sampler state of the driven `sample`
(plus, on success, the checkpoint, which touches neither buffer). -/
theorem runFrom_state_buffers (env : Env) (s : SamplerState) (p : PosVec)
    (lnprob : Option ℤ) (rstate : RStateArg) (thin : ℕ) (store : Bool)
    (N : ℕ) :
    (runFrom env s p lnprob rstate thin store N).state.chain
        = (sample env s p lnprob rstate thin store N).stateOf.chain ∧
    (runFrom env s p lnprob rstate thin store N).state.lnprob
        = (sample env s p lnprob rstate thin store N).stateOf.lnprob := by
  unfold runFrom
  cases hs : sample env s p lnprob rstate thin store N with
  | ok s' p' lnp' ys =>
    cases hys : lastY ys <;> simp [hys, RunResult.state, LoopResult.stateOf]
  | err s' ys => simp [RunResult.state, LoopResult.stateOf]

/-- Claim C8 (proved): the chain and the log-probability sequence have
equal length after construction, after `reset`, and after every `sample`
or `run` call — for every `thinning`, every `store_chain`, and also on the
error outcomes. -/
theorem claim_C8 :
    (∀ (dim : ℕ) (f : PosVec → ℤ) (cov : Cov) (r0 : RandomState),
      (mkSampler dim f cov r0).chain.length
        = (mkSampler dim f cov r0).lnprob.length) ∧
    (∀ s : SamplerState,
      (reset s).chain.length = (reset s).lnprob.length) ∧
    (∀ (env : Env) (s : SamplerState) (p : PosVec) (lnprob : Option ℤ)
        (rstate : RStateArg) (thin : ℕ) (store : Bool) (n : ℕ),
      s.chain.length = s.lnprob.length →
      (sample env s p lnprob rstate thin store n).stateOf.chain.length
        = (sample env s p lnprob rstate thin store n).stateOf.lnprob.length) ∧
    (∀ (env : Env) (s : SamplerState) (p0 : Option PosVec) (N : ℕ)
        (lnprob0 : Option ℤ) (rstate0 : RStateArg) (thin : ℕ) (store : Bool),
      s.chain.length = s.lnprob.length →
      (run env s p0 N lnprob0 rstate0 thin store).state.chain.length
        = (run env s p0 N lnprob0 rstate0 thin store).state.lnprob.length) := by
  refine ⟨fun dim f cov r0 => rfl, fun s => rfl, ?_, ?_⟩
  · intro env s p lnprob rstate thin store n h
    rw [(sample_lengths env s p lnprob rstate thin store n).1,
      (sample_lengths env s p lnprob rstate thin store n).2, h]
  · intro env s p0 N lnprob0 rstate0 thin store h
    cases p0 with
    | none =>
      cases hlr : s.lastRun with
      | none => simpa [run, hlr, RunResult.state] using h
      | some lr =>
        simp only [run, hlr]
        rw [(runFrom_state_buffers env s lr.1 _ _ thin store N).1,
          (runFrom_state_buffers env s lr.1 _ _ thin store N).2,
          (sample_lengths env s lr.1 _ _ thin store N).1,
          (sample_lengths env s lr.1 _ _ thin store N).2, h]
    | some p =>
      simp only [run]
      rw [(runFrom_state_buffers env s p _ _ thin store N).1,
        (runFrom_state_buffers env s p _ _ thin store N).2,
        (sample_lengths env s p _ _ thin store N).1,
        (sample_lengths env s p _ _ thin store N).2, h]

/-- Witness for C8 on a concrete sampler, call and error-free run. -/
theorem claim_C8_witness :
    (sample envC sC1 [0] (Option.some 0) (RStateArg.valid (RandomState.mk [5]))
        2 true 4).stateOf.chain.length =
      (sample envC sC1 [0] (Option.some 0) (RStateArg.valid (RandomState.mk [5]))
        2 true 4).stateOf.lnprob.length ∧
    (run envC sC1 (Option.some [0]) 3 Option.none RStateArg.none 1
        true).state.chain.length =
      (run envC sC1 (Option.some [0]) 3 Option.none RStateArg.none 1
        true).state.lnprob.length :=
  ⟨claim_C8.2.2.1 envC sC1 [0] (Option.some 0)
      (RStateArg.valid (RandomState.mk [5])) 2 true 4 rfl,
   claim_C8.2.2.2 envC sC1 (Option.some [0]) 3 Option.none RStateArg.none 1
      true rfl⟩

theorem consYield_agree (y : YieldT) (R1 R2 : LoopResult) :
    ResultsAgree R1 R2 → ResultsAgree (consYield y R1) (consYield y R2) := by
  cases R1 <;> cases R2 <;> intro h
  · exact ⟨h.1, h.2.1, by rw [h.2.2.1], h.2.2.2⟩
  · exact h.elim
  · exact h.elim
  · exact ⟨by rw [h.1], h.2⟩

/-- Congruence of the stepping loop: two sampler states that agree on
everything the loop reads (problem definition, buffers, RNG, cumulative
iteration counter) produce agreeing outcomes — same yields, same final
position/log-probability, same completion status, and final states that
agree again. -/
theorem sampleLoop_agree (env : Env) (thin : ℕ) (store : Bool) (i0 : ℕ) :
    ∀ (rem : ℕ) (s1 s2 : SamplerState) (p : PosVec) (lnp : ℤ) (i : ℕ),
    StepAgree s1 s2 →
    ResultsAgree (sampleLoop env thin store i0 s1 p lnp i rem)
      (sampleLoop env thin store i0 s2 p lnp i rem) := by
  intro rem
  induction rem with
  | zero => intro s1 s2 p lnp i hag; exact ⟨rfl, rfl, rfl, hag⟩
  | succ k ih =>
    intro s1 s2 p lnp i hag
    obtain ⟨hdim, hcov, hf, hchain, hlnpf, hrand, hiter⟩ := hag
    simp only [sampleLoop]
    rw [hdim, hcov, hf, hrand, hchain, hlnpf, hiter]
    by_cases hc : store ∧ i % thin = 0
    · simp only [if_pos hc]
      by_cases h1 : i0 + i / thin < s2.chain.length
      · simp only [if_pos h1]
        by_cases h2 : i0 + i / thin < s2.lnprob.length
        · simp only [if_pos h2]
          exact consYield_agree _ _ _
            (ih _ _ _ _ _ ⟨rfl, rfl, rfl, rfl, rfl, rfl, rfl⟩)
        · simp only [if_neg h2]
          exact ⟨rfl, rfl, rfl, rfl, rfl, rfl, rfl, rfl⟩
      · simp only [if_neg h1]
        exact ⟨rfl, rfl, rfl, rfl, rfl, rfl, rfl, rfl⟩
    · simp only [if_neg hc]
      exact consYield_agree _ _ _
        (ih _ _ _ _ _ ⟨rfl, rfl, rfl, rfl, rfl, rfl, rfl⟩)

/-- Claim C4 (proved): deterministic replay.  Two step sequences of the
same length driven from an identical RNG-state snapshot, identical starting
position and log-probability, over sampler states that agree on the problem
definition and buffers (histories — acceptance counter, checkpoint — may
differ), produce identical yield sequences, identical completion status and
identical resulting buffers. -/
theorem claim_C4 : ∀ (env : Env) (s1 s2 : SamplerState) (p : PosVec)
    (lnp : ℤ) (r : RandomState) (thin : ℕ) (store : Bool) (n : ℕ),
    StepAgree s1 s2 →
    ResultsAgree
      (sample env s1 p (Option.some lnp) (RStateArg.valid r) thin store n)
      (sample env s2 p (Option.some lnp) (RStateArg.valid r) thin store n) := by
  intro env s1 s2 p lnp r thin store n hag
  obtain ⟨hdim, hcov, hf, hchain, hlnpf, hrand, hiter⟩ := hag
  unfold sample
  simp only [trySetRandomState]
  cases store
  · simp only [Bool.false_eq_true, if_false]
    rw [hiter]
    apply sampleLoop_agree
    exact ⟨hdim, hcov, hf, hchain, hlnpf, rfl, rfl⟩
  · simp only [if_true]
    rw [hiter]
    apply sampleLoop_agree
    exact ⟨hdim, hcov, hf, by rw [hchain, hdim], by rw [hlnpf], rfl, rfl⟩

/-- Witness for C4: two concrete samplers differing only in acceptance
counter and checkpoint replay identically. -/
theorem claim_C4_witness :
    ResultsAgree
      (sample envC sAgree1 [0] (Option.some 0)
        (RStateArg.valid (RandomState.mk [5])) 1 true 1)
      (sample envC sAgree2 [0] (Option.some 0)
        (RStateArg.valid (RandomState.mk [5])) 1 true 1) :=
  claim_C4 envC sAgree1 sAgree2 [0] 0 (RandomState.mk [5]) 1 true 1
    ⟨rfl, rfl, rfl, rfl, rfl, rfl, rfl⟩

theorem acceptCount_append : ∀ xs ys : List (YieldT × Bool),
    acceptCount (xs ++ ys) = acceptCount xs + acceptCount ys := by
  intro xs ys
  induction xs with
  | nil => simp [acceptCount]
  | cons x xs ih =>
    show (if x.2 then 1 else 0) + acceptCount (xs ++ ys)
        = ((if x.2 then 1 else 0) + acceptCount xs) + acceptCount ys
    rw [ih]
    omega

theorem mhRun_length (env : Env) (dim : ℕ) (cov : Cov) (f : PosVec → ℤ) :
    ∀ (n : ℕ) (p : PosVec) (lnp : ℤ) (r : RandomState),
    (mhRun env dim cov f p lnp r n).length = n := by
  intro n
  induction n with
  | zero => intro p lnp r; rfl
  | succ k ih => intro p lnp r; simp only [mhRun, List.length_cons, ih]

theorem mhFinal_add (env : Env) (dim : ℕ) (cov : Cov) (f : PosVec → ℤ) :
    ∀ (n m : ℕ) (p : PosVec) (lnp : ℤ) (r : RandomState),
    mhFinal env dim cov f p lnp r (n + m) =
      mhFinal env dim cov f (mhFinal env dim cov f p lnp r n).1
        (mhFinal env dim cov f p lnp r n).2.1
        (mhFinal env dim cov f p lnp r n).2.2 m := by
  intro n
  induction n with
  | zero => intro m p lnp r; rw [Nat.zero_add]; rfl
  | succ k ih =>
    intro m p lnp r
    rw [Nat.succ_add]
    exact ih m (move env dim cov f p lnp r).1.1
      (move env dim cov f p lnp r).1.2.1 (move env dim cov f p lnp r).1.2.2

theorem mhRun_add (env : Env) (dim : ℕ) (cov : Cov) (f : PosVec → ℤ) :
    ∀ (n m : ℕ) (p : PosVec) (lnp : ℤ) (r : RandomState),
    mhRun env dim cov f p lnp r (n + m) =
      mhRun env dim cov f p lnp r n ++
      mhRun env dim cov f (mhFinal env dim cov f p lnp r n).1
        (mhFinal env dim cov f p lnp r n).2.1
        (mhFinal env dim cov f p lnp r n).2.2 m := by
  intro n
  induction n with
  | zero => intro m p lnp r; rw [Nat.zero_add]; rfl
  | succ k ih =>
    intro m p lnp r
    rw [Nat.succ_add]
    show (move env dim cov f p lnp r) ::
        mhRun env dim cov f (move env dim cov f p lnp r).1.1
          (move env dim cov f p lnp r).1.2.1
          (move env dim cov f p lnp r).1.2.2 (k + m) = _
    rw [ih]
    rfl

theorem mhRun_lastY (env : Env) (dim : ℕ) (cov : Cov) (f : PosVec → ℤ) :
    ∀ (n : ℕ) (p : PosVec) (lnp : ℤ) (r : RandomState), 0 < n →
    lastY ((mhRun env dim cov f p lnp r n).map Prod.fst) =
      Option.some (mhFinal env dim cov f p lnp r n) := by
  intro n
  induction n with
  | zero => intro p lnp r h; exact absurd h (lt_irrefl 0)
  | succ k ih =>
    intro p lnp r _
    cases k with
    | zero => rfl
    | succ k2 =>
      exact ih (move env dim cov f p lnp r).1.1
        (move env dim cov f p lnp r).1.2.1
        (move env dim cov f p lnp r).1.2.2 (Nat.succ_pos k2)

theorem storeWrites_cons (i0 thin : ℕ) (A : List α) (i : ℕ) (v : α)
    (vs : List α) :
    storeWrites i0 thin A i (v :: vs) =
      storeWrites i0 thin
        (if i % thin = 0 then A.set (i0 + i / thin) v else A) (i + 1) vs := rfl

theorem storeWrites_length (i0 thin : ℕ) : ∀ (vs A : List α) (i : ℕ),
    (storeWrites i0 thin A i vs).length = A.length := by
  intro vs
  induction vs with
  | nil => intro A i; rfl
  | cons v vs ih =>
    intro A i
    rw [storeWrites_cons, ih]
    split <;> simp

theorem set_append_lt : ∀ (A B : List α) (n : ℕ) (v : α), n < A.length →
    (A ++ B).set n v = A.set n v ++ B := by
  intro A
  induction A with
  | nil => intro B n v h; simp at h
  | cons a A ih =>
    intro B n v h
    cases n with
    | zero => rfl
    | succ m =>
      simp only [List.cons_append, List.set]
      exact congrArg (fun t => a :: t) (ih B m v (by simpa using h))

theorem storeWrites_append_frame (i0 thin : ℕ) : ∀ (vs A B : List α) (i : ℕ),
    (∀ j, j < vs.length → (i + j) % thin = 0 →
      i0 + (i + j) / thin < A.length) →
    storeWrites i0 thin (A ++ B) i vs = storeWrites i0 thin A i vs ++ B := by
  intro vs
  induction vs with
  | nil => intro A B i _; rfl
  | cons v vs ih =>
    intro A B i h
    have h' : ∀ j, j < vs.length → (i + 1 + j) % thin = 0 →
        i0 + (i + 1 + j) / thin < A.length := by
      intro j hj hm
      have hx : i + (j + 1) = i + 1 + j := by omega
      have := h (j + 1) (by simpa using Nat.succ_lt_succ hj)
      rw [hx] at this
      exact this hm
    rw [storeWrites_cons, storeWrites_cons]
    by_cases hc : i % thin = 0
    · rw [if_pos hc, if_pos hc,
        set_append_lt _ _ _ _ (by simpa using h 0 (Nat.succ_pos _) (by simpa using hc))]
      rw [ih _ _ _ (by simpa [List.length_set] using h')]
    · rw [if_neg hc, if_neg hc, ih _ _ _ h']

theorem storeWrites_append_vs (i0 thin : ℕ) : ∀ (vs ws A : List α) (i : ℕ),
    storeWrites i0 thin A i (vs ++ ws) =
      storeWrites i0 thin (storeWrites i0 thin A i vs) (i + vs.length) ws := by
  intro vs
  induction vs with
  | nil => intro ws A i; simp [storeWrites]
  | cons v vs ih =>
    intro ws A i
    simp only [List.cons_append, List.length_cons]
    rw [storeWrites_cons, storeWrites_cons, ih,
      show i + 1 + vs.length = i + (vs.length + 1) from by omega]

theorem storeWrites_skip (i0 thin : ℕ) : ∀ (vs ws A : List α) (i : ℕ),
    (∀ j, j < vs.length → (i + j) % thin ≠ 0) →
    storeWrites i0 thin A i (vs ++ ws) =
      storeWrites i0 thin A (i + vs.length) ws := by
  intro vs
  induction vs with
  | nil => intro ws A i _; simp
  | cons v vs ih =>
    intro ws A i h
    have h' : ∀ j, j < vs.length → (i + 1 + j) % thin ≠ 0 := by
      intro j hj
      have hx : i + (j + 1) = i + 1 + j := by omega
      have := h (j + 1) (by simpa using Nat.succ_lt_succ hj)
      rw [hx] at this
      exact this
    simp only [List.cons_append, List.length_cons]
    rw [storeWrites_cons, if_neg (by simpa using h 0 (Nat.succ_pos _)),
      ih _ _ _ h', show i + 1 + vs.length = i + (vs.length + 1) from by omega]

theorem storeWrites_shift (i0 thin : ℕ) (hth : 0 < thin) :
    ∀ (vs A : List α) (i : ℕ),
    storeWrites i0 thin A (i + thin) vs = storeWrites (i0 + 1) thin A i vs := by
  intro vs
  induction vs with
  | nil => intro A i; rfl
  | cons v vs ih =>
    intro A i
    rw [storeWrites_cons, storeWrites_cons, Nat.add_mod_right,
      Nat.add_div_right _ hth,
      show i0 + (i / thin + 1) = i0 + 1 + i / thin from by omega,
      show i + thin + 1 = i + 1 + thin from by omega, ih]

theorem nth_set_eq : ∀ (A : List α) (n : ℕ) (v d : α), n < A.length →
    nth d (A.set n v) n = v := by
  intro A
  induction A with
  | nil => intro n v d h; simp at h
  | cons a A ih =>
    intro n v d h
    cases n with
    | zero => rfl
    | succ m => exact ih m v d (by simpa using h)

theorem nth_set_ne : ∀ (A : List α) (m n : ℕ) (v d : α), m ≠ n →
    nth d (A.set m v) n = nth d A n := by
  intro A
  induction A with
  | nil => intro m n v d _; rfl
  | cons a A ih =>
    intro m n v d h
    cases m with
    | zero =>
      cases n with
      | zero => exact absurd rfl h
      | succ n2 => rfl
    | succ m2 =>
      cases n with
      | zero => rfl
      | succ n2 => exact ih m2 n2 v d (fun he => h (by rw [he]))

theorem nth_drop : ∀ (l : List α) (n m : ℕ) (d : α),
    nth d (l.drop n) m = nth d l (n + m) := by
  intro l
  induction l with
  | nil => intro n m d; cases n <;> rfl
  | cons a l ih =>
    intro n m d
    cases n with
    | zero => rw [Nat.zero_add]; rfl
    | succ k =>
      show nth d (l.drop k) m = nth d (a :: l) (k + 1 + m)
      rw [ih, show k + 1 + m = (k + m) + 1 from by omega]
      rfl

theorem storeWrites_lower (i0 thin : ℕ) : ∀ (vs A : List α) (i n : ℕ) (d : α),
    n < i0 → nth d (storeWrites i0 thin A i vs) n = nth d A n := by
  intro vs
  induction vs with
  | nil => intro A i n d _; rfl
  | cons v vs ih =>
    intro A i n d h
    rw [storeWrites_cons, ih _ _ _ _ h]
    split
    · exact nth_set_ne A (i0 + i / thin) n v d
        (fun he => absurd h (Nat.not_lt.mpr (he ▸ Nat.le_add_right i0 (i / thin))))
    · rfl

theorem storeWrites_content (thin : ℕ) (hth : 0 < thin) :
    ∀ (m : ℕ) (i0 : ℕ) (B vs : List α) (j : ℕ) (d : α),
    vs.length = thin * m → j < m → i0 + m ≤ B.length →
    nth d (storeWrites i0 thin B 0 vs) (i0 + j) = nth d vs (j * thin) := by
  intro m
  induction m with
  | zero => intro i0 B vs j d _ hj _; omega
  | succ k ih =>
    intro i0 B vs j d hlen hj hB
    have hmul : thin * (k + 1) = thin * k + thin := by ring
    cases vs with
    | nil =>
      simp only [List.length_nil] at hlen
      rcases Nat.mul_eq_zero.mp hlen.symm with h | h <;> omega
    | cons v rest =>
      simp only [List.length_cons] at hlen
      have hrest : rest.length = thin * k + thin - 1 := by omega
      have htake : (List.take (thin - 1) rest).length = thin - 1 := by
        rw [List.length_take]; omega
      have hstep : storeWrites i0 thin (B.set i0 v) 1 rest =
          storeWrites (i0 + 1) thin (B.set i0 v) 0 (rest.drop (thin - 1)) := by
        conv_lhs => rw [← List.take_append_drop (thin - 1) rest]
        rw [storeWrites_skip _ _ _ _ _ _ ?hskip, htake,
          show 1 + (thin - 1) = 0 + thin from by omega,
          storeWrites_shift i0 thin hth]
        case hskip =>
          intro j' hj'
          rw [htake] at hj'
          rw [Nat.mod_eq_of_lt (by omega)]
          omega
      rw [storeWrites_cons, if_pos (Nat.zero_mod thin), Nat.zero_div,
        Nat.add_zero, hstep]
      cases j with
      | zero =>
        have hlow := storeWrites_lower (i0 + 1) thin (List.drop (thin - 1) rest)
          (B.set i0 v) 0 i0 d (by omega)
        calc nth d (storeWrites (i0 + 1) thin (B.set i0 v) 0
              (List.drop (thin - 1) rest)) (i0 + 0)
            = nth d (B.set i0 v) i0 := hlow
          _ = v := nth_set_eq B i0 v d (by omega)
          _ = nth d (v :: rest) (0 * thin) := by rw [Nat.zero_mul]; rfl
      | succ j2 =>
        have hvs' : (rest.drop (thin - 1)).length = thin * k := by
          rw [List.length_drop]; omega
        have hres := ih (i0 + 1) (B.set i0 v) (rest.drop (thin - 1)) j2 d hvs'
          (by omega) (by rw [List.length_set]; omega)
        rw [show i0 + (j2 + 1) = i0 + 1 + j2 from by omega, hres, nth_drop,
          show (thin - 1) + j2 * thin = (j2 + 1) * thin - 1 from by
            have : (j2 + 1) * thin = j2 * thin + thin := by ring
            omega]
        have hpos : (j2 + 1) * thin = ((j2 + 1) * thin - 1) + 1 := by
          have : (j2 + 1) * thin = j2 * thin + thin := by ring
          omega
        rw [hpos]
        rfl

/-- One storing iteration of the loop, unfolded (the `store_chain and
i % thin == 0` branch with both writes in range). -/
theorem sampleLoop_succ_store (env : Env) (thin : ℕ) (i0 : ℕ)
    (s : SamplerState) (p : PosVec) (lnp : ℤ) (i k : ℕ)
    (hci : i % thin = 0) (h1 : i0 + i / thin < s.chain.length)
    (h2 : i0 + i / thin < s.lnprob.length) :
    sampleLoop env thin true i0 s p lnp i (k + 1) =
      consYield (move env s.dim s.cov s.lnprobfn p lnp s.random).1
        (sampleLoop env thin true i0
          { s with
            chain := s.chain.set (i0 + i / thin)
              (move env s.dim s.cov s.lnprobfn p lnp s.random).1.1,
            lnprob := s.lnprob.set (i0 + i / thin)
              (move env s.dim s.cov s.lnprobfn p lnp s.random).1.2.1,
            iterations := s.iterations + 1,
            accepted := if (move env s.dim s.cov s.lnprobfn p lnp s.random).2
              then s.accepted + 1 else s.accepted,
            random := (move env s.dim s.cov s.lnprobfn p lnp s.random).1.2.2 }
          (move env s.dim s.cov s.lnprobfn p lnp s.random).1.1
          (move env s.dim s.cov s.lnprobfn p lnp s.random).1.2.1 (i + 1) k) := by
  simp only [sampleLoop]
  rw [if_pos (⟨trivial, hci⟩ : True ∧ i % thin = 0), if_pos h1, if_pos h2]

/-- One non-storing iteration of the loop (step index not a multiple of
`thin`), unfolded. -/
theorem sampleLoop_succ_skip (env : Env) (thin : ℕ) (i0 : ℕ)
    (s : SamplerState) (p : PosVec) (lnp : ℤ) (i k : ℕ)
    (hci : ¬ i % thin = 0) :
    sampleLoop env thin true i0 s p lnp i (k + 1) =
      consYield (move env s.dim s.cov s.lnprobfn p lnp s.random).1
        (sampleLoop env thin true i0
          { s with
            iterations := s.iterations + 1,
            accepted := if (move env s.dim s.cov s.lnprobfn p lnp s.random).2
              then s.accepted + 1 else s.accepted,
            random := (move env s.dim s.cov s.lnprobfn p lnp s.random).1.2.2 }
          (move env s.dim s.cov s.lnprobfn p lnp s.random).1.1
          (move env s.dim s.cov s.lnprobfn p lnp s.random).1.2.1 (i + 1) k) := by
  simp only [sampleLoop]
  rw [if_neg (fun hc => hci hc.2)]

/-- Characterization of the storing loop when every selected write is in
range: it completes, yields exactly the pure Markov trajectory, writes the
trajectory into the buffers at rows `i0 + i / thin` for the steps with
`i % thin = 0`, advances the counters by the step and acceptance counts,
and threads the RNG to the trajectory endpoint. -/
theorem sampleLoop_char (env : Env) (thin : ℕ) (i0 : ℕ) :
    ∀ (rem : ℕ) (s : SamplerState) (p : PosVec) (lnp : ℤ) (i : ℕ),
    (∀ j, j < rem → (i + j) % thin = 0 →
      i0 + (i + j) / thin < s.chain.length ∧
      i0 + (i + j) / thin < s.lnprob.length) →
    sampleLoop env thin true i0 s p lnp i rem =
      LoopResult.ok
        { s with
          chain := storeWrites i0 thin s.chain i
            ((mhRun env s.dim s.cov s.lnprobfn p lnp s.random rem).map
              (fun x => x.1.1)),
          lnprob := storeWrites i0 thin s.lnprob i
            ((mhRun env s.dim s.cov s.lnprobfn p lnp s.random rem).map
              (fun x => x.1.2.1)),
          iterations := s.iterations + rem,
          accepted := s.accepted +
            acceptCount (mhRun env s.dim s.cov s.lnprobfn p lnp s.random rem),
          random := (mhFinal env s.dim s.cov s.lnprobfn p lnp s.random rem).2.2 }
        (mhFinal env s.dim s.cov s.lnprobfn p lnp s.random rem).1
        (mhFinal env s.dim s.cov s.lnprobfn p lnp s.random rem).2.1
        ((mhRun env s.dim s.cov s.lnprobfn p lnp s.random rem).map Prod.fst) := by
  intro rem
  induction rem with
  | zero => intro s p lnp i _; rfl
  | succ k ih =>
    intro s p lnp i h
    by_cases hci : i % thin = 0
    · have hb0 := h 0 (Nat.succ_pos k) (by simpa using hci)
      rw [Nat.add_zero] at hb0
      rw [sampleLoop_succ_store env thin i0 s p lnp i k hci hb0.1 hb0.2]
      set mr := move env s.dim s.cov s.lnprobfn p lnp s.random with hmr
      set s4 : SamplerState :=
        { s with
          chain := s.chain.set (i0 + i / thin) mr.1.1,
          lnprob := s.lnprob.set (i0 + i / thin) mr.1.2.1,
          iterations := s.iterations + 1,
          accepted := if mr.2 then s.accepted + 1 else s.accepted,
          random := mr.1.2.2 } with hs4
      have hb : ∀ j, j < k → (i + 1 + j) % thin = 0 →
          i0 + (i + 1 + j) / thin < s4.chain.length ∧
          i0 + (i + 1 + j) / thin < s4.lnprob.length := by
        intro j hj hm
        have hx : i + (j + 1) = i + 1 + j := by omega
        have := h (j + 1) (by omega) (by rw [hx]; exact hm)
        rw [hx] at this
        constructor
        · rw [hs4]; simpa [List.length_set] using this.1
        · rw [hs4]; simpa [List.length_set] using this.2
      rw [ih s4 mr.1.1 mr.1.2.1 (i + 1) hb]
      simp only [consYield, hs4, mhRun, mhFinal, acceptCount, List.map_cons,
        storeWrites_cons, if_pos hci, ← hmr, LoopResult.ok.injEq,
        SamplerState.mk.injEq, true_and, and_true]
      refine ⟨?_, ?_⟩
      · omega
      · cases mr.2 <;> simp <;> omega
    · rw [sampleLoop_succ_skip env thin i0 s p lnp i k hci]
      set mr := move env s.dim s.cov s.lnprobfn p lnp s.random with hmr
      set s2 : SamplerState :=
        { s with
          iterations := s.iterations + 1,
          accepted := if mr.2 then s.accepted + 1 else s.accepted,
          random := mr.1.2.2 } with hs2
      have hb : ∀ j, j < k → (i + 1 + j) % thin = 0 →
          i0 + (i + 1 + j) / thin < s2.chain.length ∧
          i0 + (i + 1 + j) / thin < s2.lnprob.length := by
        intro j hj hm
        have hx : i + (j + 1) = i + 1 + j := by omega
        have := h (j + 1) (by omega) (by rw [hx]; exact hm)
        rw [hx] at this
        exact ⟨by rw [hs2]; exact this.1, by rw [hs2]; exact this.2⟩
      rw [ih s2 mr.1.1 mr.1.2.1 (i + 1) hb]
      simp only [consYield, hs2, mhRun, mhFinal, acceptCount, List.map_cons,
        storeWrites_cons, if_neg hci, ← hmr, LoopResult.ok.injEq,
        SamplerState.mk.injEq, true_and, and_true]
      refine ⟨?_, ?_⟩
      · omega
      · cases mr.2 <;> simp <;> omega

theorem storeWrites_shiftN (i0 thin : ℕ) (hth : 0 < thin) :
    ∀ (n : ℕ) (vs A : List α) (i : ℕ),
    storeWrites i0 thin A (i + n * thin) vs =
      storeWrites (i0 + n) thin A i vs := by
  intro n
  induction n with
  | zero => intro vs A i; rw [Nat.zero_mul, Nat.add_zero, Nat.add_zero]
  | succ m ih =>
    intro vs A i
    rw [show i + (m + 1) * thin = (i + thin) + m * thin from by ring, ih,
      storeWrites_shift _ _ hth, Nat.add_assoc]

/-- Splitting a thin-1 write sequence over a split allocation. -/
theorem storeWrites_chain_glue (L N1 N2 : ℕ) (A : List α) (d : α)
    (vs ws : List α) (hA : A.length = L) (hvs : vs.length = N1) :
    storeWrites L 1 (A ++ List.replicate (N1 + N2) d) 0 (vs ++ ws) =
      storeWrites (L + N1) 1
        ((storeWrites L 1 (A ++ List.replicate N1 d) 0 vs) ++
          List.replicate N2 d) 0 ws := by
  rw [List.replicate_add, ← List.append_assoc, storeWrites_append_vs,
    storeWrites_append_frame L 1 vs (A ++ List.replicate N1 d)
      (List.replicate N2 d) 0 ?hfr]
  · have hsh := storeWrites_shiftN L 1 Nat.one_pos N1 ws
      ((storeWrites L 1 (A ++ List.replicate N1 d) 0 vs) ++
        List.replicate N2 d) 0
    rw [show (0 : ℕ) + N1 * 1 = N1 from by omega] at hsh
    rw [Nat.zero_add, hvs, hsh]
  case hfr =>
    intro j hj _
    rw [Nat.zero_add, Nat.div_one, List.length_append, List.length_replicate]
    omega

/-- Characterization of a completed `runFrom` with `store_chain = true`, a
positive iteration count that the thinning interval divides, and consistent
bookkeeping (`iterations` equal to the chain length): it returns the
trajectory endpoint, stores the thinned trajectory, advances the counters
and sets the checkpoint.  `lnpE` and `rE` are the effective starting
log-probability and RNG state (from the arguments or computed/kept by
`sample`). -/
theorem runFrom_char (env : Env) (s : SamplerState) (p : PosVec)
    (lnprob : Option ℤ) (rstate : RStateArg) (N k : ℕ) (lnpE : ℤ)
    (rE : RandomState)
    (hr : trySetRandomState rstate s.random = rE)
    (hl : (lnprob = Option.none ∧ lnpE = s.lnprobfn p) ∨
      lnprob = Option.some lnpE)
    (hk : 0 < k) (hN : 0 < N) (hdvd : k ∣ N)
    (hiter : s.iterations = s.chain.length)
    (hlen : s.lnprob.length = s.chain.length) :
    runFrom env s p lnprob rstate k true N =
      RunResult.ok
        { s with
          chain := storeWrites s.iterations k
            (s.chain ++ List.replicate (N / k) (List.replicate s.dim 0)) 0
            ((mhRun env s.dim s.cov s.lnprobfn p lnpE rE N).map
              (fun x => x.1.1)),
          lnprob := storeWrites s.iterations k
            (s.lnprob ++ List.replicate (N / k) 0) 0
            ((mhRun env s.dim s.cov s.lnprobfn p lnpE rE N).map
              (fun x => x.1.2.1)),
          iterations := s.iterations + N,
          accepted := s.accepted +
            acceptCount (mhRun env s.dim s.cov s.lnprobfn p lnpE rE N),
          random := (mhFinal env s.dim s.cov s.lnprobfn p lnpE rE N).2.2,
          lastRun := Option.some
            (mhFinal env s.dim s.cov s.lnprobfn p lnpE rE N) }
        (mhFinal env s.dim s.cov s.lnprobfn p lnpE rE N) := by
  subst hr
  have hbound : ∀ j, j < N → (0 + j) % k = 0 →
      s.iterations + (0 + j) / k <
        (s.chain ++ List.replicate (N / k) (List.replicate s.dim 0)).length ∧
      s.iterations + (0 + j) / k <
        (s.lnprob ++ List.replicate (N / k) 0).length := by
    intro j hj hm
    rw [Nat.zero_add] at hm ⊢
    obtain ⟨a, ha⟩ := Nat.dvd_of_mod_eq_zero hm
    obtain ⟨b, hb⟩ := hdvd
    have hab : a < b := by
      rw [ha, hb] at hj
      exact Nat.lt_of_mul_lt_mul_left hj
    have hda : j / k = a := by rw [ha, Nat.mul_div_cancel_left a hk]
    have hdb : N / k = b := by rw [hb, Nat.mul_div_cancel_left b hk]
    constructor
    · rw [List.length_append, List.length_replicate, hda, hdb, hiter]; omega
    · rw [List.length_append, List.length_replicate, hda, hdb, hiter, hlen]
      omega
  rcases hl with ⟨hnone, hE⟩ | hsome
  · subst hnone
    subst hE
    have hchar := sampleLoop_char env k s.iterations N
      { s with random := trySetRandomState rstate s.random,
               chain := s.chain ++
                 List.replicate (N / k) (List.replicate s.dim 0),
               lnprob := s.lnprob ++ List.replicate (N / k) 0 }
      p (s.lnprobfn p) 0 hbound
    replace hchar : sample env s p Option.none rstate k true N = _ := hchar
    show runFrom env s p Option.none rstate k true N = _
    simp only [runFrom]
    rw [hchar]
    dsimp only
    rw [mhRun_lastY env s.dim s.cov s.lnprobfn N p (s.lnprobfn p)
      (trySetRandomState rstate s.random) hN]
  · subst hsome
    have hchar := sampleLoop_char env k s.iterations N
      { s with random := trySetRandomState rstate s.random,
               chain := s.chain ++
                 List.replicate (N / k) (List.replicate s.dim 0),
               lnprob := s.lnprob ++ List.replicate (N / k) 0 }
      p lnpE 0 hbound
    replace hchar : sample env s p (Option.some lnpE) rstate k true N = _ :=
      hchar
    show runFrom env s p (Option.some lnpE) rstate k true N = _
    simp only [runFrom]
    rw [hchar]
    dsimp only
    rw [mhRun_lastY env s.dim s.cov s.lnprobfn N p lnpE
      (trySetRandomState rstate s.random) hN]

/-- Claim C2 (amended, proved): for a `run` call with `thinning = k`,
`store_chain = true` and `N ≥ 1` steps, **provided** `k` divides `N` and the
sampler's cumulative iteration counter equals the chain length at the start
of the call, the call completes, appends exactly `N / k` rows to each
buffer, and appended row `j` holds the trajectory state after step `j·k`
counted relative to the start of the call. -/
theorem claim_C2 : ∀ (env : Env) (s : SamplerState) (p0 : PosVec) (N k : ℕ),
    0 < k → k ∣ N → 0 < N →
    s.iterations = s.chain.length → s.lnprob.length = s.chain.length →
    (run env s (Option.some p0) N Option.none RStateArg.none k true).isOk
      = true ∧
    (run env s (Option.some p0) N Option.none RStateArg.none k
      true).state.chain.length = s.chain.length + N / k ∧
    (run env s (Option.some p0) N Option.none RStateArg.none k
      true).state.lnprob.length = s.chain.length + N / k ∧
    (∀ j, j < N / k →
      nth [] (run env s (Option.some p0) N Option.none RStateArg.none k
          true).state.chain (s.chain.length + j) =
        nth [] ((mhRun env s.dim s.cov s.lnprobfn p0 (get_lnprob s p0)
          s.random N).map (fun x => x.1.1)) (j * k)) ∧
    (∀ j, j < N / k →
      nth 0 (run env s (Option.some p0) N Option.none RStateArg.none k
          true).state.lnprob (s.chain.length + j) =
        nth 0 ((mhRun env s.dim s.cov s.lnprobfn p0 (get_lnprob s p0)
          s.random N).map (fun x => x.1.2.1)) (j * k)) := by
  intro env s p0 N k hk hdvd hN hiter hlen
  have hrun : run env s (Option.some p0) N Option.none RStateArg.none k true
      = _ :=
    runFrom_char env s p0 Option.none RStateArg.none N k (s.lnprobfn p0)
      s.random rfl (Or.inl ⟨rfl, rfl⟩) hk hN hdvd hiter hlen
  rw [hrun]
  refine ⟨rfl, ?_, ?_, ?_, ?_⟩
  · simp only [RunResult.state]
    rw [storeWrites_length, List.length_append, List.length_replicate]
  · simp only [RunResult.state]
    rw [storeWrites_length, List.length_append, List.length_replicate, hlen]
  · intro j hj
    simp only [RunResult.state]
    have hc := storeWrites_content k hk (N / k) s.iterations
      (s.chain ++ List.replicate (N / k) (List.replicate s.dim 0))
      ((mhRun env s.dim s.cov s.lnprobfn p0 (s.lnprobfn p0) s.random N).map
        (fun x => x.1.1)) j []
      (by rw [List.length_map, mhRun_length]
          exact (Nat.mul_div_cancel' hdvd).symm)
      hj
      (by rw [List.length_append, List.length_replicate]; omega)
    rw [← hiter]
    exact hc
  · intro j hj
    simp only [RunResult.state]
    have hc := storeWrites_content k hk (N / k) s.iterations
      (s.lnprob ++ List.replicate (N / k) 0)
      ((mhRun env s.dim s.cov s.lnprobfn p0 (s.lnprobfn p0) s.random N).map
        (fun x => x.1.2.1)) j 0
      (by rw [List.length_map, mhRun_length]
          exact (Nat.mul_div_cancel' hdvd).symm)
      hj
      (by rw [List.length_append, List.length_replicate]; omega)
    rw [← hiter]
    exact hc

/-- Witness for the amended C2: a concrete call with `N = 4`, `k = 2` on a
fresh sampler completes, appends `2` rows, and row `1` holds the state
after step `2` of the call. -/
theorem claim_C2_witness :
    (run envC sC1 (Option.some [0]) 4 Option.none RStateArg.none 2
      true).isOk = true ∧
    (run envC sC1 (Option.some [0]) 4 Option.none RStateArg.none 2
      true).state.chain.length = sC1.chain.length + 4 / 2 ∧
    nth [] (run envC sC1 (Option.some [0]) 4 Option.none RStateArg.none 2
        true).state.chain (sC1.chain.length + 1) =
      nth [] ((mhRun envC sC1.dim sC1.cov sC1.lnprobfn [0]
        (get_lnprob sC1 [0]) sC1.random 4).map (fun x => x.1.1)) (1 * 2) :=
  ⟨(claim_C2 envC sC1 [0] 4 2 (by decide) (by decide) (by decide) rfl rfl).1,
   (claim_C2 envC sC1 [0] 4 2 (by decide) (by decide) (by decide) rfl
     rfl).2.1,
   (claim_C2 envC sC1 [0] 4 2 (by decide) (by decide) (by decide) rfl
     rfl).2.2.2.1 1 (by decide)⟩

/-- Counterexample to C2 as stated: on a fresh sampler, `run` with `N = 3`
steps and `thinning = 2` pre-allocates `floor(3/2) = 1` row but attempts to
store the steps with index `0` **and** `2` of the call (there are
`ceil(N/k)` such steps), so the write of step `2` targets row
`i0 + 2/2 = 1` of a 1-row allocation and the call dies with `IndexError`
instead of storing `floor(N/k)` rows at steps `0, k, 2k, …`. -/
theorem claim_C2_counterexample :
    (run envC sC1 (Option.some [0]) 3 Option.none RStateArg.none 2
      true).isIndexErr = true ∧
    (run envC sC1 (Option.some [0]) 3 Option.none RStateArg.none 2
      true).isOk = false := by
  decide

/-- Claim C3 (proved): resumability.  Starting from any sampler whose
bookkeeping is consistent (cumulative iterations equal to the chain
length, as holds after construction or `reset`), `run(p0, N1)` followed by
`run(None, N2)` — position, log-probability and RNG state defaulting from
the checkpoint — ends in exactly the same `RunResult` (same final state:
chain, log-probabilities, counters, RNG, checkpoint; and same returned
triple) as the single call `run(p0, N1 + N2)` from the same start. -/
theorem claim_C3 : ∀ (env : Env) (s : SamplerState) (p0 : PosVec)
    (N1 N2 : ℕ), 0 < N1 → 0 < N2 →
    s.iterations = s.chain.length → s.lnprob.length = s.chain.length →
    (run env s (Option.some p0) N1 Option.none RStateArg.none 1 true).isOk
      = true ∧
    run env
        (run env s (Option.some p0) N1 Option.none RStateArg.none 1
          true).state Option.none N2 Option.none RStateArg.none 1 true =
      run env s (Option.some p0) (N1 + N2) Option.none RStateArg.none 1
        true := by
  intro env s p0 N1 N2 hN1 hN2 hiter hlen
  have h1 : run env s (Option.some p0) N1 Option.none RStateArg.none 1 true
      = _ :=
    runFrom_char env s p0 Option.none RStateArg.none N1 1 (s.lnprobfn p0)
      s.random rfl (Or.inl ⟨rfl, rfl⟩) Nat.one_pos hN1 (one_dvd _) hiter hlen
  have hBig : run env s (Option.some p0) (N1 + N2) Option.none RStateArg.none
      1 true = _ :=
    runFrom_char env s p0 Option.none RStateArg.none (N1 + N2) 1
      (s.lnprobfn p0) s.random rfl (Or.inl ⟨rfl, rfl⟩) Nat.one_pos (by omega)
      (one_dvd _) hiter hlen
  refine ⟨by rw [h1]; rfl, ?_⟩
  rw [h1, hBig]
  simp only [RunResult.state]
  have h2 : run env
      { s with
        chain := storeWrites s.iterations 1
          (s.chain ++ List.replicate (N1 / 1) (List.replicate s.dim 0)) 0
          ((mhRun env s.dim s.cov s.lnprobfn p0 (s.lnprobfn p0) s.random
            N1).map (fun x => x.1.1)),
        lnprob := storeWrites s.iterations 1
          (s.lnprob ++ List.replicate (N1 / 1) 0) 0
          ((mhRun env s.dim s.cov s.lnprobfn p0 (s.lnprobfn p0) s.random
            N1).map (fun x => x.1.2.1)),
        iterations := s.iterations + N1,
        accepted := s.accepted +
          acceptCount (mhRun env s.dim s.cov s.lnprobfn p0 (s.lnprobfn p0)
            s.random N1),
        random := (mhFinal env s.dim s.cov s.lnprobfn p0 (s.lnprobfn p0)
          s.random N1).2.2,
        lastRun := Option.some (mhFinal env s.dim s.cov s.lnprobfn p0
          (s.lnprobfn p0) s.random N1) }
      Option.none N2 Option.none RStateArg.none 1 true = _ :=
    runFrom_char env _
      (mhFinal env s.dim s.cov s.lnprobfn p0 (s.lnprobfn p0) s.random N1).1
      (Option.some (mhFinal env s.dim s.cov s.lnprobfn p0 (s.lnprobfn p0)
        s.random N1).2.1)
      (RStateArg.valid (mhFinal env s.dim s.cov s.lnprobfn p0
        (s.lnprobfn p0) s.random N1).2.2)
      N2 1
      (mhFinal env s.dim s.cov s.lnprobfn p0 (s.lnprobfn p0) s.random N1).2.1
      (mhFinal env s.dim s.cov s.lnprobfn p0 (s.lnprobfn p0) s.random N1).2.2
      rfl (Or.inr rfl) Nat.one_pos hN2 (one_dvd _)
      (by simp only [storeWrites_length, List.length_append,
            List.length_replicate, Nat.div_one]
          omega)
      (by simp only [storeWrites_length, List.length_append,
            List.length_replicate, Nat.div_one]
          omega)
  rw [h2]
  simp only [Nat.div_one]
  rw [mhRun_add env s.dim s.cov s.lnprobfn N1 N2 p0 (s.lnprobfn p0) s.random,
    mhFinal_add env s.dim s.cov s.lnprobfn N1 N2 p0 (s.lnprobfn p0) s.random]
  simp only [List.map_append, acceptCount_append]
  rw [storeWrites_chain_glue s.iterations N1 N2 s.chain
    (List.replicate s.dim 0)
    ((mhRun env s.dim s.cov s.lnprobfn p0 (s.lnprobfn p0) s.random N1).map
      (fun x => x.1.1)) _ hiter.symm
    (by rw [List.length_map, mhRun_length]),
    storeWrites_chain_glue s.iterations N1 N2 s.lnprob (0 : ℤ)
    ((mhRun env s.dim s.cov s.lnprobfn p0 (s.lnprobfn p0) s.random N1).map
      (fun x => x.1.2.1)) _ (hlen.trans hiter.symm)
    (by rw [List.length_map, mhRun_length])]
  simp only [RunResult.ok.injEq, SamplerState.mk.injEq, true_and, and_true]
  constructor <;> omega

/-- Witness for C3 on a concrete sampler: one step then two steps resumes
to the same result as three steps at once. -/
theorem claim_C3_witness :
    (run envC sC1 (Option.some [0]) 1 Option.none RStateArg.none 1
      true).isOk = true ∧
    run envC
        (run envC sC1 (Option.some [0]) 1 Option.none RStateArg.none 1
          true).state Option.none 2 Option.none RStateArg.none 1 true =
      run envC sC1 (Option.some [0]) (1 + 2) Option.none RStateArg.none 1
        true :=
  claim_C3 envC sC1 [0] 1 2 (by decide) (by decide) rfl rfl

/-- Claim C10 (proved): `run` with zero iterations never returns the
starting triple — the generator yields nothing, so the loop variable is
unbound and `run` fails with `UnboundLocalError`, leaving the checkpoint
exactly as it was. -/
theorem claim_C10 : ∀ (env : Env) (s : SamplerState) (p0 : PosVec)
    (lnprob0 : Option ℤ) (rstate0 : RStateArg) (thin : ℕ) (store : Bool),
    (run env s (Option.some p0) 0 lnprob0 rstate0 thin store).isUnboundLocal
      = true ∧
    (run env s (Option.some p0) 0 lnprob0 rstate0 thin store).state.lastRun
      = s.lastRun := by
  intro env s p0 l rs th st
  cases st <;>
    simp [run, runFrom, sample, sampleLoop, lastY, RunResult.isUnboundLocal,
      RunResult.state]

end MontePython
